import Mathlib

/-! Shallow embedding of the purchase order generator in src/app.py.
Python floats are modelled as exact rationals extended with the special
values nan, inf and -inf; Python strings are Lean strings, operated on
through their character lists so that every definition is executable by
kernel reduction. Each definition mirrors the source function or code
block named in its comment. -/

/-- Whitespace characters recognised by the Python str.strip method and by
the regular expression class backslash-s, restricted to the ASCII range
actually exercised by the application. -/
def pyWs (c : Char) : Bool :=
  c == ' ' || c == '\t' || c == '\n' || c == '\r' || c == '\x0b' || c == '\x0c'

/-- Drop leading and trailing whitespace from a character list, as the
Python str.strip method does. -/
def stripChars (l : List Char) : List Char :=
  ((l.dropWhile pyWs).reverse.dropWhile pyWs).reverse

/-- Python str.strip on strings. -/
def pyStrip (s : String) : String := ⟨stripChars s.data⟩

/-- Python str.lower on strings (ASCII case folding, which covers every
input the application produces). -/
def pyLower (s : String) : String := ⟨s.data.map Char.toLower⟩

/-- Embedding of the clean helper (src/app.py lines 36 to 47): strip the
value, then normalize the blank markers nan, none and null, compared
case-insensitively, to the empty string. The Python branches for the None
object and for pandas missing values also yield the empty string; those
inputs are represented here by the empty string, which the branch below
maps to itself. -/
def clean (v : String) : String :=
  if pyLower (pyStrip v) = "nan" ∨ pyLower (pyStrip v) = "none" ∨ pyLower (pyStrip v) = "null"
  then "" else pyStrip v

/-- Python str.join with the comma-space separator used by the article
builder in build_pdf. -/
def joinComma : List String → String
  | [] => ""
  | [s] => s
  | s :: rest => s ++ ", " ++ joinComma rest

/-- Article cell construction from src/app.py lines 315 to 330: clean each
field, then concatenate the present parts in the fixed source order, the
drain part being guarded by a case-insensitive comparison with none. -/
def renderArticle (pg model color wall drain : String) : String :=
  joinComma
    ((if clean pg ≠ "" then [clean pg] else []) ++
     (if clean model ≠ "" then ["Mod. " ++ clean model] else []) ++
     (if clean wall ≠ "" then ["(" ++ clean wall ++ ")"] else []) ++
     (if clean color ≠ "" then [clean color] else []) ++
     (if clean pg = "Bins" ∧ clean drain ≠ "" ∧ pyLower (clean drain) ≠ "none"
      then ["drain: " ++ clean drain] else []))

/-- The article construction as the specification words it (spec section
4.4): the same parts in the same fixed order, with the drain part included
only when the group is Bins and the cleaned drain is present and differs
from the literal string None. -/
def renderArticleSpec (pg model color wall drain : String) : String :=
  joinComma
    ((if clean pg ≠ "" then [clean pg] else []) ++
     (if clean model ≠ "" then ["Mod. " ++ clean model] else []) ++
     (if clean wall ≠ "" then ["(" ++ clean wall ++ ")"] else []) ++
     (if clean color ≠ "" then [clean color] else []) ++
     (if clean pg = "Bins" ∧ clean drain ≠ "" ∧ clean drain ≠ "None"
      then ["drain: " ++ clean drain] else []))

/-- Embedding of scale_mm (src/app.py lines 29 to 34): passthrough when the
weight sum is not positive, otherwise scale every weight by the ratio of
the target to the sum. -/
def scale_mm (widths_mm : List ℚ) (target_total_mm : ℚ) : List ℚ :=
  let s := widths_mm.sum
  if s ≤ 0 then widths_mm
  else widths_mm.map (fun w => w * (target_total_mm / s))

/-- Embedding of the font fit policy inside build_pdf (src/app.py lines 257
to 259): the row count is clamped to at least one, the body font follows
the 18 and 24 thresholds, and the small font follows the body font. -/
def fitPolicy (n : ℕ) : ℕ × ℕ :=
  let rows := max 1 n
  let body_font : ℕ := if rows ≤ 18 then 8 else if rows ≤ 24 then 7 else 6
  let small_font : ℕ := if body_font ≥ 7 then 7 else 6
  (body_font, small_font)

/-- Embedding of the totals computation in build_pdf (src/app.py lines 314,
331 to 333 and 363 to 365): the running net sum over the precomputed line
totals, the VAT amount and the gross sum. -/
def totalsCalc (totals : List ℚ) (vat_rate : ℚ) : ℚ × ℚ × ℚ :=
  let net_sum := totals.foldl (fun acc t => acc + t) 0
  (net_sum, net_sum * vat_rate, net_sum + net_sum * vat_rate)

/-- Decimal digit character for the ten possible digit values. -/
def digitChar10 : ℕ → Char
  | 0 => '0'
  | 1 => '1'
  | 2 => '2'
  | 3 => '3'
  | 4 => '4'
  | 5 => '5'
  | 6 => '6'
  | 7 => '7'
  | 8 => '8'
  | _ => '9'

/-- Least-significant-first decimal digits, computed with explicit fuel so
that the recursion is structural and kernel-reducible. -/
def digitsRevAux : ℕ → ℕ → List ℕ
  | 0, _ => []
  | _ + 1, 0 => []
  | fuel + 1, n + 1 => (n + 1) % 10 :: digitsRevAux fuel ((n + 1) / 10)

/-- Least-significant-first decimal digits of a natural number, never
empty. -/
def digitsLSD (n : ℕ) : List ℕ :=
  if n = 0 then [0] else digitsRevAux n n

/-- Insert the separator after every third character of a
least-significant-first digit list, as the comma grouping of the Python
format specification does. -/
def grp3 (sep : Char) : List Char → List Char
  | a :: b :: c :: d :: rest => a :: b :: c :: sep :: grp3 sep (d :: rest)
  | l => l

/-- Most-significant-first decimal rendering of a natural number with a
thousands separator. -/
def intChars (sep : Char) (n : ℕ) : List Char :=
  (grp3 sep ((digitsLSD n).map digitChar10)).reverse

/-- Round a rational to the nearest integer, ties to the even neighbour:
the rounding used by the Python fixed-point format specification. -/
def roundHalfEven (q : ℚ) : ℤ :=
  if q - ⌊q⌋ < 1 / 2 then ⌊q⌋
  else if 1 / 2 < q - ⌊q⌋ then ⌊q⌋ + 1
  else if 2 ∣ ⌊q⌋ then ⌊q⌋ else ⌊q⌋ + 1

/-- A Python float: a finite value, modelled exactly as a rational, or one
of the special values. -/
inductive PyFloat
  | fin (q : ℚ)
  | nan
  | inf
  | ninf
deriving DecidableEq

/-- Digit characters of a two-decimal fixed-point rendering of a number of
cents: grouped integer part, decimal point, two fractional digits. -/
def centsChars (cents : ℕ) : List Char :=
  intChars ',' (cents / 100) ++ '.' :: digitChar10 (cents / 10 % 10) :: [digitChar10 (cents % 10)]

/-- The Python format string with comma grouping and two decimals applied
to a float: finite values are rounded to cents half-to-even with the sign
taken from the value, and special values print as their names. -/
def pyFmt2 : PyFloat → List Char
  | PyFloat.fin q =>
    (if q < 0 then ['-'] else []) ++ centsChars (roundHalfEven (|q| * 100)).toNat
  | PyFloat.nan => "nan".data
  | PyFloat.inf => "inf".data
  | PyFloat.ninf => "-inf".data

/-- Python str.replace for a single-character pattern and single-character
replacement. -/
def pyReplaceChar (a b : Char) (l : List Char) : List Char :=
  l.map (fun c => if c = a then b else c)

/-- The three successive replacements of eur_fmt (src/app.py lines 25 to
26), which exchange the comma and the period. -/
def eurSwap (l : List Char) : List Char :=
  pyReplaceChar '_' '.' (pyReplaceChar '.' ',' (pyReplaceChar ',' '_' l))

/-- Split a character list at every occurrence of a separator. The result
is never empty; the impossible empty case of the inner match is mapped to
a singleton to keep the function total. -/
def splitOnC (sep : Char) : List Char → List (List Char)
  | [] => [[]]
  | c :: rest =>
    match splitOnC sep rest with
    | [] => [[]]
    | g :: gs => if c = sep then [] :: g :: gs else (c :: g) :: gs

/-- A well-formed list of thousands groups: the leading group has one to
three digit characters and every later group exactly three. -/
def validGroups : List (List Char) → Bool
  | [] => false
  | g :: gs =>
    decide (1 ≤ g.length ∧ g.length ≤ 3) && g.all Char.isDigit &&
      gs.all (fun h => h.length == 3 && h.all Char.isDigit)

/-- Remove one leading minus sign if present. -/
def stripMinus : List Char → List Char
  | [] => []
  | c :: t => if c = '-' then t else c :: t

/-- The output shape claimed for the money formatter, on a character list:
after an optional minus sign, exactly one comma acting as decimal
separator followed by exactly two digits, the integer part being digit
groups joined by periods acting as thousands separators. -/
def euroShape (l : List Char) : Bool :=
  match splitOnC ',' (stripMinus l) with
  | [ip, fp] => fp.length == 2 && fp.all Char.isDigit && validGroups (splitOnC '.' ip)
  | _ => false

/-- The output shape claimed for the money formatter, on strings. -/
def isEuroFormat (s : String) : Bool := euroShape s.data

/-- Numeric value of a list of decimal digit characters. -/
def digitsVal (l : List Char) : ℕ :=
  l.foldl (fun a c => 10 * a + (c.toNat - 48)) 0

/-- Parse the mantissa of a Python float literal: digits with an optional
single decimal point, at least one digit in total. -/
def parseDec (l : List Char) : Option ℚ :=
  match splitOnC '.' l with
  | [a] => if a ≠ [] ∧ a.all Char.isDigit then some ((digitsVal a : ℕ) : ℚ) else none
  | [a, b] =>
    if (a ≠ [] ∨ b ≠ []) ∧ a.all Char.isDigit ∧ b.all Char.isDigit then
      some ((digitsVal a : ℚ) + (digitsVal b : ℚ) / (10 : ℚ) ^ b.length)
    else none
  | _ => none

/-- Parse the exponent of a Python float literal: an optional sign followed
by at least one digit. -/
def parseExpPart (l : List Char) : Option ℤ :=
  match l with
  | '+' :: t => if t ≠ [] ∧ t.all Char.isDigit then some ((digitsVal t : ℕ) : ℤ) else none
  | '-' :: t => if t ≠ [] ∧ t.all Char.isDigit then some (-((digitsVal t : ℕ) : ℤ)) else none
  | t => if t ≠ [] ∧ t.all Char.isDigit then some ((digitsVal t : ℕ) : ℤ) else none

/-- Model of the Python float constructor applied to a string: surrounding
whitespace is stripped, the comparison is case-insensitive, the words inf,
infinity and nan are accepted, and otherwise a decimal literal with an
optional exponent is required. Underscore digit separators, which the
Python constructor also accepts, are not modelled; every input the
application produces is covered. The finite result is the exact rational
value of the literal. -/
def floatOfString (s : String) : Option PyFloat :=
  let body := fun (neg : Bool) (t : List Char) =>
    if t = "inf".data ∨ t = "infinity".data then
      some (if neg then PyFloat.ninf else PyFloat.inf)
    else if t = "nan".data then some PyFloat.nan
    else
      match splitOnC 'e' t with
      | [m] => (parseDec m).map (fun q => PyFloat.fin (if neg then -q else q))
      | [m, ex] =>
        match parseDec m, parseExpPart ex with
        | some q, some e =>
          some (PyFloat.fin (if neg then -(q * (10 : ℚ) ^ e) else q * (10 : ℚ) ^ e))
        | _, _ => none
      | _ => none
  match (stripChars s.data).map Char.toLower with
  | '+' :: t => body false t
  | '-' :: t => body true t
  | t => body false t

/-- A value reaching eur_fmt: a float, a string, or the Python None
object. -/
inductive PyVal
  | num (f : PyFloat)
  | str (s : String)
  | noneVal

/-- The float conversion attempted by eur_fmt: floats pass through,
strings are parsed, None fails. -/
def pyFloatOf : PyVal → Option PyFloat
  | PyVal.num f => some f
  | PyVal.str s => floatOfString s
  | PyVal.noneVal => none

/-- Embedding of eur_fmt (src/app.py lines 20 to 27): convert the input to
a float, returning the empty string when the conversion fails, then format
with comma grouping and two decimals and exchange the comma and the
period. -/
def eur_fmt (x : PyVal) : String :=
  match pyFloatOf x with
  | some v => ⟨eurSwap (pyFmt2 v)⟩
  | none => ""

/-- Characters outside whitespace kept by the first substitution of
sanitize_filename: ASCII letters, digits, hyphen, underscore and
period. -/
def asciiSafe (c : Char) : Bool :=
  (65 ≤ c.toNat && c.toNat ≤ 90) || (97 ≤ c.toNat && c.toNat ≤ 122) ||
    (48 ≤ c.toNat && c.toNat ≤ 57) || c == '-' || c == '_' || c == '.'

/-- The character class kept by the first substitution of
sanitize_filename: the safe characters together with whitespace. -/
def keptChar (c : Char) : Bool := asciiSafe c || pyWs c

/-- The second substitution of sanitize_filename: every maximal run of
whitespace becomes a single underscore. The flag records whether the
previous character belonged to a whitespace run. -/
def collapseWs : Bool → List Char → List Char
  | _, [] => []
  | prev, c :: rest =>
    if pyWs c then
      (if prev then collapseWs true rest else '_' :: collapseWs true rest)
    else c :: collapseWs false rest

/-- Embedding of sanitize_filename (src/app.py lines 49 to 55): strip the
name, fall back to the default token when empty, drop unsafe characters,
collapse whitespace runs to underscores, and append the pdf extension
unless the lowercased name already ends with it. -/
def sanitize_filename (name : String) : String :=
  let base := pyStrip name
  let base := if base = "" then "supplier_order" else base
  let safe := base.data.filter (fun c => keptChar c)
  let safe := collapseWs false safe
  if ".pdf".data.isSuffixOf (safe.map Char.toLower) then ⟨safe⟩
  else ⟨safe ++ ".pdf".data⟩

/-- Python str.replace of the newline character by the break tag, used on
the address and footer blocks. -/
def replaceNl (s : String) : String :=
  ⟨(s.data.map (fun c => if c = '\n' then "<br/>".data else [c])).flatten⟩

/-- Python int conversion of a rational: truncation toward zero. -/
def pyTrunc (q : ℚ) : ℤ := q.num.tdiv (q.den : ℤ)

/-- The order metadata dictionary passed to build_pdf (src/app.py lines
404 to 418). -/
structure OrderMeta where
  company : String
  contact_person : String
  tel : String
  email : String
  order_no : String
  your_order_ref : String
  date_str : String
  ship_to : String
  bill_to : String
  vat_id : String
  vat_rate : ℚ
  footer_left : String
  footer_right_extra : String

/-- One line item row as read back inside build_pdf: the free-text fields,
the quantity and the monetary fields. A column absent from the data frame
reads as a blank value, represented by the empty string. -/
structure LineRow where
  productGroup : String
  model : String
  color : String
  wallBuild : String
  drain : String
  note : String
  quantity : ℤ
  netPrice : ℚ
  total : ℚ

/-- The header row of the item table (src/app.py line 310). -/
def headerCells : List String :=
  ["Pos.", "Quantity", "Article", "Note", "VAT %", "Net price (EUR)", "Total (EUR)"]

/-- One data row of the item table (src/app.py lines 315 to 344): position,
quantity, article from the cleaned fields, cleaned note, VAT percentage
truncated to an integer, and the two formatted monetary cells. -/
def rowCells (vat_rate : ℚ) (pos : ℕ) (r : LineRow) : List String :=
  [toString pos,
   toString r.quantity,
   renderArticle r.productGroup r.model r.color r.wallBuild r.drain,
   clean r.note,
   toString (pyTrunc (vat_rate * 100)) ++ "%",
   eur_fmt (PyVal.num (PyFloat.fin r.netPrice)),
   eur_fmt (PyVal.num (PyFloat.fin r.total))]

/-- The data rows of the item table with one-based sequential positions. -/
def tableRows (vat_rate : ℚ) : ℕ → List LineRow → List (List String)
  | _, [] => []
  | pos, r :: rest => rowCells vat_rate pos r :: tableRows vat_rate (pos + 1) rest

/-- The textual content assembled by build_pdf, in story order: title
block, meta block, item table, totals, disclaimer and footer. The byte
serialization performed by the external PDF library is outside this
embedding. -/
structure PdfDoc where
  rightHeader : String
  shippingHtml : String
  billingHtml : String
  metaRight : String
  bodyFont : ℕ
  smallFont : ℕ
  colWidthsMm : List ℚ
  tableData : List (List String)
  netStr : String
  vatLabel : String
  vatStr : String
  grossStr : String
  disclaimer : String
  footerLeftHtml : String
  footerRightHtml : String

/-- Embedding of build_pdf (src/app.py lines 245 to 402): the deterministic
assembly of every textual and numeric component of the document. -/
def buildPdf (meta : OrderMeta) (lines : List LineRow) : PdfDoc :=
  let rows := max 1 lines.length
  let body_font : ℕ := if rows ≤ 18 then 8 else if rows ≤ 24 then 7 else 6
  let small_font : ℕ := if body_font ≥ 7 then 7 else 6
  let right_header :=
    "<b>Order</b><br/>Our Order No.: " ++ meta.order_no ++
      (if meta.your_order_ref ≠ "" then "<br/>Your order ref.: " ++ meta.your_order_ref
       else "") ++
      "<br/>VAT ID: " ++ meta.vat_id
  let shipping_html := if meta.ship_to ≠ "" then replaceNl (clean meta.ship_to) else ""
  let billing_html := replaceNl (clean meta.bill_to)
  let meta_right :=
    "Page: 1<br/>Date: " ++ meta.date_str ++ "<br/>Contact person: " ++ meta.contact_person
  let col_w_mm := scale_mm [10, 18, 85, 35, 12, 30, 30] 180
  let data := headerCells :: tableRows meta.vat_rate 1 lines
  let net_sum := (lines.map (fun r => r.total)).foldl (fun acc t => acc + t) 0
  let vat_amount := net_sum * meta.vat_rate
  let gross := net_sum + vat_amount
  { rightHeader := right_header
    shippingHtml := shipping_html
    billingHtml := billing_html
    metaRight := meta_right
    bodyFont := body_font
    smallFont := small_font
    colWidthsMm := col_w_mm
    tableData := data
    netStr := eur_fmt (PyVal.num (PyFloat.fin net_sum))
    vatLabel := "VAT (" ++ toString (pyTrunc (meta.vat_rate * 100)) ++ "%):"
    vatStr := eur_fmt (PyVal.num (PyFloat.fin vat_amount))
    grossStr := eur_fmt (PyVal.num (PyFloat.fin gross))
    disclaimer :=
      "Customer protection, neutrality and on-time delivery are taken for granted. " ++
        "Please make sure to give Rotogal reference numbers with any query " ++
        "(invoice, delivery note). We kindly ask for a written confirmation of order."
    footerLeftHtml := replaceNl meta.footer_left
    footerRightHtml := replaceNl ("VAT ID: " ++ meta.vat_id ++ "\n" ++ meta.footer_right_extra) }

/-- A concrete metadata record with every optional field blank, used to
exercise the empty-order theorem. -/
def sampleMeta : OrderMeta :=
  { company := ""
    contact_person := ""
    tel := ""
    email := ""
    order_no := ""
    your_order_ref := ""
    date_str := ""
    ship_to := ""
    bill_to := ""
    vat_id := ""
    vat_rate := 0
    footer_left := ""
    footer_right_extra := "" }

/-! Helper lemmas. -/

theorem sum_map_mul (l : List ℚ) (c : ℚ) :
    (l.map (fun w => w * c)).sum = l.sum * c := by
  induction l with
  | nil => simp
  | cons a t ih => simp [ih, add_mul]

theorem foldl_add_eq_sum (l : List ℚ) : ∀ a : ℚ,
    l.foldl (fun acc t => acc + t) a = a + l.sum := by
  induction l with
  | nil => intro a; simp
  | cons x t ih => intro a; simp [ih, add_assoc]

/-! Claims about the column width scaler, the fit policy and the totals. -/

/-- C5: when the weight sum is strictly positive, scale_mm returns the list
of weights each multiplied by the ratio of the target to the weight sum,
hence of the same length and order and summing exactly to the target; when
the weight sum is not positive it returns the input unchanged, in
particular on the all-zero list. -/
theorem scale_mm_spec :
    (∀ (ws : List ℚ) (t : ℚ), 0 < ws.sum →
      scale_mm ws t = ws.map (fun w => w * (t / ws.sum)) ∧ (scale_mm ws t).sum = t) ∧
    (∀ (ws : List ℚ) (t : ℚ), ws.sum ≤ 0 → scale_mm ws t = ws) ∧
    (∀ t : ℚ, scale_mm [0, 0] t = [0, 0]) := by
  refine ⟨fun ws t h => ?_, fun ws t h => ?_, fun t => ?_⟩
  · have hne : scale_mm ws t = ws.map (fun w => w * (t / ws.sum)) := by
      unfold scale_mm
      rw [if_neg (not_le.mpr h)]
    refine ⟨hne, ?_⟩
    rw [hne, sum_map_mul, mul_comm, div_mul_cancel₀ _ (ne_of_gt h)]
  · unfold scale_mm
    rw [if_pos h]
  · unfold scale_mm
    norm_num

/-- C5 witness: a concrete positive-sum instance scaled to the target and
the degenerate all-zero passthrough. -/
theorem scale_mm_spec_witness :
    (scale_mm [1, 2, 3] 180).sum = 180 ∧ scale_mm [0, 0] 7 = [0, 0] :=
  ⟨(scale_mm_spec.1 [1, 2, 3] 180 (by norm_num)).2,
   scale_mm_spec.2.1 [0, 0] 7 (by norm_num)⟩

/-- C6: the fit policy picks body font 8 for at most 18 rows, 7 for 19 to
24 rows and 6 beyond, and small font 7 exactly when the body font is at
least 7, with the three example row counts from the specification. -/
theorem fitPolicy_spec :
    (∀ n : ℕ,
      (n ≤ 18 → (fitPolicy n).1 = 8) ∧
      (18 < n → n ≤ 24 → (fitPolicy n).1 = 7) ∧
      (24 < n → (fitPolicy n).1 = 6) ∧
      (7 ≤ (fitPolicy n).1 → (fitPolicy n).2 = 7) ∧
      ((fitPolicy n).1 < 7 → (fitPolicy n).2 = 6)) ∧
    fitPolicy 10 = (8, 7) ∧ fitPolicy 20 = (7, 7) ∧ fitPolicy 30 = (6, 6) := by
  refine ⟨fun n => ?_, by decide, by decide, by decide⟩
  simp only [fitPolicy]
  split_ifs with h1 h2 <;> simp_all
  all_goals omega

/-- C6 witness: the three specification examples obtained from the general
statement. -/
theorem fitPolicy_spec_witness :
    (fitPolicy 10).1 = 8 ∧ (fitPolicy 20).1 = 7 ∧ (fitPolicy 30).1 = 6 ∧
      (fitPolicy 30).2 = 6 ∧ (fitPolicy 10).2 = 7 :=
  ⟨(fitPolicy_spec.1 10).1 (by decide),
   (fitPolicy_spec.1 20).2.1 (by decide) (by decide),
   (fitPolicy_spec.1 30).2.2.1 (by decide),
   (fitPolicy_spec.1 30).2.2.2.2 (by decide),
   (fitPolicy_spec.1 10).2.2.2.1 (by decide)⟩

/-- C7: the totals computation returns the exact sum of the line totals,
the VAT amount as that sum times the rate, and the gross as their sum,
with the concrete example from the specification. -/
theorem totalsCalc_spec :
    (∀ (ts : List ℚ) (r : ℚ),
      totalsCalc ts r = (ts.sum, ts.sum * r, ts.sum + ts.sum * r)) ∧
    totalsCalc [100, 200] (21 / 100) = (300, 63, 363) := by
  have key : ∀ (ts : List ℚ) (r : ℚ),
      totalsCalc ts r = (ts.sum, ts.sum * r, ts.sum + ts.sum * r) := by
    intro ts r
    simp [totalsCalc, foldl_add_eq_sum]
  refine ⟨key, ?_⟩
  rw [key]
  norm_num

/-! Claims about the line item renderer. -/

theorem clean_lower_ne_none (v : String) (h : clean v ≠ "") :
    pyLower (clean v) ≠ "none" := by
  by_cases hc : pyLower (pyStrip v) = "nan" ∨ pyLower (pyStrip v) = "none" ∨
      pyLower (pyStrip v) = "null"
  · simp only [clean] at h
    rw [if_pos hc] at h
    exact absurd rfl h
  · simp only [clean]
    rw [if_neg hc]
    exact fun hn => hc (Or.inr (Or.inl hn))

theorem clean_ne_None (v : String) : clean v ≠ "None" := by
  unfold clean
  split
  · decide
  · rename_i hc
    intro h
    exact hc (Or.inr (Or.inl (by rw [h]; decide)))

/-- C2: the article string built by build_pdf agrees, on every input, with
the construction described by the specification (cleaned fields joined in
the fixed order, with the drain part restricted to present Bins drains
other than None), and the two section 8 examples hold; the cleaning step
maps whitespace-only values and the case-insensitive markers nan, none and
null to the absent value. -/
theorem renderArticle_spec_correct :
    (∀ pg model color wall drain,
      renderArticle pg model color wall drain = renderArticleSpec pg model color wall drain) ∧
    renderArticle "Bins" "BI-565" "Blue" "EPE" "1\" drain" =
      "Bins, Mod. BI-565, (EPE), Blue, drain: 1\" drain" ∧
    renderArticle "Lids" "" "nan" "" "" = "Lids" ∧
    (∀ v, pyStrip v = "" → clean v = "") ∧
    (∀ v, pyLower (pyStrip v) = "nan" ∨ pyLower (pyStrip v) = "none" ∨
      pyLower (pyStrip v) = "null" → clean v = "") := by
  refine ⟨fun pg model color wall drain => ?_, by decide, by decide,
    fun v h => ?_, fun v h => ?_⟩
  · unfold renderArticle renderArticleSpec
    by_cases h2 : clean drain = ""
    · simp [h2]
    · have h3 : pyLower (clean drain) ≠ "none" := clean_lower_ne_none drain h2
      have h4 : clean drain ≠ "None" := clean_ne_None drain
      simp [h2, h3, h4]
  · unfold clean
    rw [h]
    decide
  · unfold clean
    rw [if_pos h]

/-- C2 witness: the cleaning clauses applied at concrete inputs. -/
theorem renderArticle_spec_correct_witness :
    (pyStrip "   " = "" ∧ clean "   " = "") ∧
    ((pyLower (pyStrip " NULL ") = "nan" ∨ pyLower (pyStrip " NULL ") = "none" ∨
      pyLower (pyStrip " NULL ") = "null") ∧ clean " NULL " = "") ∧
    renderArticle "Buggies" "nan" "Red" "none" "NULL" = "Buggies, Red" :=
  ⟨⟨by decide, renderArticle_spec_correct.2.2.2.1 "   " (by decide)⟩,
   ⟨by decide, renderArticle_spec_correct.2.2.2.2 " NULL " (by decide)⟩,
   by decide⟩

/-! Claims about the money formatter. -/

theorem digitChar10_isDigit (n : ℕ) : (digitChar10 n).isDigit = true := by
  unfold digitChar10
  split <;> decide

theorem digit_ne_special (c : Char) (h : c.isDigit = true) :
    c ≠ ',' ∧ c ≠ '.' ∧ c ≠ '_' ∧ c ≠ '-' := by
  refine ⟨fun hEq => ?_, fun hEq => ?_, fun hEq => ?_, fun hEq => ?_⟩ <;>
    subst hEq <;> exact absurd h (by decide)

theorem splitOnC_ne_nil (sep : Char) (l : List Char) : splitOnC sep l ≠ [] := by
  induction l with
  | nil => simp [splitOnC]
  | cons c rest ih =>
    simp only [splitOnC]
    cases h : splitOnC sep rest with
    | nil => simp
    | cons g gs => by_cases hc : c = sep <;> simp [hc]

theorem splitOnC_no_sep (sep : Char) (l : List Char) (h : ∀ c ∈ l, c ≠ sep) :
    splitOnC sep l = [l] := by
  induction l with
  | nil => rfl
  | cons c rest ih =>
    have hrest := ih (fun x hx => h x (List.mem_cons_of_mem _ hx))
    simp only [splitOnC, hrest]
    rw [if_neg (h c (List.mem_cons_self c rest))]

theorem splitOnC_append_sep (sep : Char) (g : List Char) (hg : ∀ c ∈ g, c ≠ sep) :
    ∀ l : List Char, splitOnC sep (l ++ sep :: g) = splitOnC sep l ++ [g] := by
  intro l
  induction l with
  | nil =>
    simp only [List.nil_append, splitOnC, splitOnC_no_sep sep g hg]
    simp
  | cons c rest ih =>
    obtain ⟨h0, t0, hht⟩ : ∃ h0 t0, splitOnC sep rest = h0 :: t0 := by
      cases hsp : splitOnC sep rest with
      | nil => exact absurd hsp (splitOnC_ne_nil sep rest)
      | cons a b => exact ⟨a, b, rfl⟩
    simp only [List.cons_append, splitOnC, hht, List.append_eq]
    rw [ih, hht]
    by_cases hc : c = sep <;> simp [hc]

theorem grp3_mem (sep : Char) (l : List Char) : ∀ x ∈ grp3 sep l, x ∈ l ∨ x = sep := by
  induction l using grp3.induct sep with
  | case1 a b c d rest ih =>
    intro x hx
    rw [grp3] at hx
    simp only [List.mem_cons] at hx
    rcases hx with h | h | h | h | h
    · exact Or.inl (by simp [h])
    · exact Or.inl (by simp [h])
    · exact Or.inl (by simp [h])
    · exact Or.inr h
    · rcases ih x h with h2 | h2
      · exact Or.inl
          (List.mem_cons_of_mem a (List.mem_cons_of_mem b (List.mem_cons_of_mem c h2)))
      · exact Or.inr h2
  | case2 l hshape =>
    intro x hx
    rw [grp3] at hx
    · exact Or.inl hx
    · exact hshape

theorem validGroups_append (gs : List (List Char)) (g : List Char)
    (hgs : validGroups gs = true) (hlen : g.length = 3) (hdig : g.all Char.isDigit = true) :
    validGroups (gs ++ [g]) = true := by
  cases gs with
  | nil => simp [validGroups] at hgs
  | cons h0 t0 =>
    simp only [validGroups, List.cons_append, Bool.and_eq_true, List.all_append,
      List.all_cons, List.all_nil] at hgs ⊢
    simp_all [hlen, hdig]
    exact fun x hx => (hgs.2 x hx).2

theorem grp3_valid : ∀ l : List Char, l ≠ [] → (∀ c ∈ l, c.isDigit = true) →
    validGroups (splitOnC '.' ((grp3 '.' l).reverse)) = true := by
  intro l
  induction l using grp3.induct '.' with
  | case1 a b c d rest ih =>
    intro _ hdig
    have hd : ∀ x ∈ d :: rest, x.isDigit = true := fun x hx =>
      hdig x (List.mem_cons_of_mem a (List.mem_cons_of_mem b (List.mem_cons_of_mem c hx)))
    have hrec := ih (by simp) hd
    have hrev : (grp3 '.' (a :: b :: c :: d :: rest)).reverse =
        (grp3 '.' (d :: rest)).reverse ++ '.' :: [c, b, a] := by
      rw [grp3]
      simp [List.reverse_cons, List.append_assoc]
    have hcba : ∀ x ∈ [c, b, a], x ≠ '.' := by
      intro x hx
      simp only [List.mem_cons, List.not_mem_nil, or_false] at hx
      have hxd : x.isDigit = true := by
        rcases hx with rfl | rfl | rfl
        · exact hdig x (by simp)
        · exact hdig x (by simp)
        · exact hdig x (by simp)
      exact (digit_ne_special x hxd).2.1
    rw [hrev, splitOnC_append_sep '.' [c, b, a] hcba]
    refine validGroups_append _ _ hrec (by simp) ?_
    rw [List.all_eq_true]
    intro x hx
    simp only [List.mem_cons, List.not_mem_nil, or_false] at hx
    rcases hx with rfl | rfl | rfl
    · exact hdig x (by simp)
    · exact hdig x (by simp)
    · exact hdig x (by simp)
  | case2 l hshape =>
    intro hne hdig
    have hl : grp3 '.' l = l := by
      rw [grp3]
      exact hshape
    rw [hl]
    have hnodot : ∀ x ∈ l.reverse, x ≠ '.' := fun x hx =>
      (digit_ne_special x (hdig x (List.mem_reverse.mp hx))).2.1
    rw [splitOnC_no_sep '.' l.reverse hnodot]
    have hlen : 1 ≤ l.length ∧ l.length ≤ 3 := by
      rcases l with _ | ⟨a, _ | ⟨b, _ | ⟨c, _ | ⟨d, t⟩⟩⟩⟩
      · exact absurd rfl hne
      · simp
      · simp
      · simp
      · exact absurd rfl (fun h => hshape a b c d t h)
    simp only [validGroups, Bool.and_eq_true, List.all_nil, decide_eq_true_eq,
      List.length_reverse]
    refine ⟨⟨hlen, ?_⟩, trivial⟩
    rw [List.all_eq_true]
    exact fun x hx => hdig x (List.mem_reverse.mp hx)

theorem digitsLSD_map_ne_nil (n : ℕ) : (digitsLSD n).map digitChar10 ≠ [] := by
  unfold digitsLSD
  split
  · simp
  · rename_i h
    cases n with
    | zero => exact absurd rfl h
    | succ m => simp [digitsRevAux]

theorem intChars_mem (sep : Char) (n : ℕ) :
    ∀ c ∈ intChars sep n, c.isDigit = true ∨ c = sep := by
  intro c hc
  unfold intChars at hc
  rw [List.mem_reverse] at hc
  rcases grp3_mem sep _ c hc with h | h
  · rcases List.mem_map.mp h with ⟨m, _, rfl⟩
    exact Or.inl (digitChar10_isDigit m)
  · exact Or.inr h

theorem eurSwap_eq_map (l : List Char) (h : ∀ c ∈ l, c ≠ '_') :
    eurSwap l = l.map (fun c => if c = ',' then '.' else if c = '.' then ',' else c) := by
  unfold eurSwap pyReplaceChar
  rw [List.map_map, List.map_map]
  apply List.map_congr_left
  intro c hc
  have hu : c ≠ '_' := h c hc
  by_cases h1 : c = ','
  · subst h1; decide
  · by_cases h2 : c = '.'
    · subst h2; decide
    · simp [Function.comp, h1, h2, hu]

theorem grp3_map (f : Char → Char) (sep : Char) : ∀ l : List Char,
    (grp3 sep l).map f = grp3 (f sep) (l.map f) := by
  intro l
  induction l using grp3.induct sep with
  | case1 a b c d rest ih =>
    rw [grp3]
    simp only [List.map_cons]
    rw [ih, grp3, List.map_cons]
  | case2 l hshape =>
    have h1 : grp3 sep l = l := by
      rw [grp3]
      exact hshape
    have h2 : grp3 (f sep) (l.map f) = l.map f := by
      rw [grp3]
      rcases l with _ | ⟨x1, _ | ⟨x2, _ | ⟨x3, _ | ⟨x4, t⟩⟩⟩⟩
      · intro a b c d rest hEq; simp at hEq
      · intro a b c d rest hEq; simp at hEq
      · intro a b c d rest hEq; simp at hEq
      · intro a b c d rest hEq; simp at hEq
      · exact absurd rfl (fun h => hshape x1 x2 x3 x4 t h)
    rw [h1, h2]

theorem map_digits_id (l : List Char) (h : ∀ c ∈ l, c.isDigit = true) :
    l.map (fun c => if c = ',' then '.' else if c = '.' then ',' else c) = l := by
  have h2 : ∀ c ∈ l, (fun c => if c = ',' then '.' else if c = '.' then ',' else c) c = id c := by
    intro c hc
    have hd := digit_ne_special c (h c hc)
    simp [hd.1, hd.2.1]
  rw [List.map_congr_left h2, List.map_id]

theorem stripMinus_eq_self (l : List Char) (h : ∀ c ∈ l, c ≠ '-') : stripMinus l = l := by
  cases l with
  | nil => rfl
  | cons c t =>
    have hc : c ≠ '-' := h c (List.mem_cons_self c t)
    simp [stripMinus, hc]

theorem digitsLSD_digits (n : ℕ) :
    ∀ x ∈ (digitsLSD n).map digitChar10, x.isDigit = true := by
  intro x hx
  rcases List.mem_map.mp hx with ⟨m, _, rfl⟩
  exact digitChar10_isDigit m

theorem euroShape_cents (sign : List Char) (hs : sign = [] ∨ sign = ['-'])
    (cents : ℕ) : euroShape (eurSwap (sign ++ centsChars cents)) = true := by
  have hmem : ∀ c ∈ sign ++ centsChars cents,
      c = '-' ∨ c.isDigit = true ∨ c = ',' ∨ c = '.' := by
    intro c hc
    rcases List.mem_append.mp hc with h | h
    · rcases hs with rfl | rfl
      · simp at h
      · simp only [List.mem_cons, List.not_mem_nil, or_false] at h
        exact Or.inl h
    · unfold centsChars at h
      rcases List.mem_append.mp h with h | h
      · rcases intChars_mem ',' _ c h with h2 | h2
        · exact Or.inr (Or.inl h2)
        · exact Or.inr (Or.inr (Or.inl h2))
      · simp only [List.mem_cons, List.not_mem_nil, or_false] at h
        rcases h with rfl | rfl | rfl
        · exact Or.inr (Or.inr (Or.inr rfl))
        · exact Or.inr (Or.inl (digitChar10_isDigit _))
        · exact Or.inr (Or.inl (digitChar10_isDigit _))
  have hno : ∀ c ∈ sign ++ centsChars cents, c ≠ '_' := by
    intro c hc
    rcases hmem c hc with rfl | h | rfl | rfl
    · decide
    · exact (digit_ne_special c h).2.2.1
    · decide
    · decide
  rw [eurSwap_eq_map _ hno, List.map_append]
  have hint : (intChars ',' (cents / 100)).map
      (fun c => if c = ',' then '.' else if c = '.' then ',' else c) =
      intChars '.' (cents / 100) := by
    unfold intChars
    rw [List.map_reverse, grp3_map, map_digits_id _ (digitsLSD_digits _)]
    rfl
  have hcc : (centsChars cents).map
      (fun c => if c = ',' then '.' else if c = '.' then ',' else c) =
      intChars '.' (cents / 100) ++ ',' ::
        digitChar10 (cents / 10 % 10) :: [digitChar10 (cents % 10)] := by
    unfold centsChars
    rw [List.map_append, hint]
    simp only [List.map_cons, List.map_nil]
    have e1 := digit_ne_special _ (digitChar10_isDigit (cents / 10 % 10))
    have e2 := digit_ne_special _ (digitChar10_isDigit (cents % 10))
    simp [e1.1, e1.2.1, e2.1, e2.2.1]
  rw [hcc]
  have hsign : sign.map (fun c => if c = ',' then '.' else if c = '.' then ',' else c) = sign := by
    rcases hs with rfl | rfl
    · rfl
    · decide
  rw [hsign]
  have hstrip : stripMinus (sign ++ (intChars '.' (cents / 100) ++ ',' ::
      digitChar10 (cents / 10 % 10) :: [digitChar10 (cents % 10)])) =
      intChars '.' (cents / 100) ++ ',' ::
        digitChar10 (cents / 10 % 10) :: [digitChar10 (cents % 10)] := by
    rcases hs with rfl | rfl
    · rw [List.nil_append]
      apply stripMinus_eq_self
      intro c hc
      rcases List.mem_append.mp hc with h | h
      · rcases intChars_mem '.' _ c h with h2 | h2
        · exact (digit_ne_special c h2).2.2.2
        · subst h2; decide
      · simp only [List.mem_cons, List.not_mem_nil, or_false] at h
        rcases h with rfl | rfl | rfl
        · decide
        · exact (digit_ne_special _ (digitChar10_isDigit _)).2.2.2
        · exact (digit_ne_special _ (digitChar10_isDigit _)).2.2.2
    · rfl
  unfold euroShape
  rw [hstrip]
  have hnocomma : ∀ c ∈ intChars '.' (cents / 100), c ≠ ',' := by
    intro c hc
    rcases intChars_mem '.' _ c hc with h2 | h2
    · exact (digit_ne_special c h2).1
    · subst h2; decide
  have hfp : ∀ c ∈ [digitChar10 (cents / 10 % 10), digitChar10 (cents % 10)], c ≠ ',' := by
    intro c hc
    simp only [List.mem_cons, List.not_mem_nil, or_false] at hc
    rcases hc with rfl | rfl
    · exact (digit_ne_special _ (digitChar10_isDigit _)).1
    · exact (digit_ne_special _ (digitChar10_isDigit _)).1
  rw [show (',' :: digitChar10 (cents / 10 % 10) :: [digitChar10 (cents % 10)]) =
      ',' :: [digitChar10 (cents / 10 % 10), digitChar10 (cents % 10)] from rfl,
    splitOnC_append_sep ',' _ hfp, splitOnC_no_sep ',' _ hnocomma]
  simp only [List.cons_append, List.nil_append]
  have hvg : validGroups (splitOnC '.' (intChars '.' (cents / 100))) = true := by
    unfold intChars
    exact grp3_valid _ (digitsLSD_map_ne_nil _) (digitsLSD_digits _)
  simp [hvg, digitChar10_isDigit]

theorem roundHalfEven_natCast (n : ℕ) : roundHalfEven ((n : ℕ) : ℚ) = (n : ℤ) := by
  unfold roundHalfEven
  rw [Int.floor_natCast]
  split_ifs with h1 h2
  · rfl
  · exact absurd (by push_cast; norm_num) h1
  · exact absurd (by push_cast; norm_num) h1
  · exact absurd (by push_cast; norm_num) h1

/-- C3 counterexample: the not-a-number float is a numeric input on which
eur_fmt returns the string nan, which is not in the claimed
thousands-and-two-decimals shape. -/
theorem eur_fmt_nan_not_euro :
    eur_fmt (PyVal.num PyFloat.nan) = "nan" ∧
      isEuroFormat (eur_fmt (PyVal.num PyFloat.nan)) = false := by
  constructor <;> decide

/-- C3 amended: for every finite numeric input, eur_fmt returns a string
with a period as thousands separator and a comma as decimal separator with
exactly two decimal places, and the two concrete specification examples
hold; the special float values nan and inf fall outside this shape. -/
theorem eur_fmt_finite_format :
    (∀ q : ℚ, isEuroFormat (eur_fmt (PyVal.num (PyFloat.fin q))) = true) ∧
    eur_fmt (PyVal.num (PyFloat.fin 0)) = "0,00" ∧
    eur_fmt (PyVal.num (PyFloat.fin (2469 / 2))) = "1.234,50" := by
  refine ⟨fun q => ?_, ?_, ?_⟩
  · show euroShape (eurSwap ((if q < 0 then ['-'] else []) ++
        centsChars (roundHalfEven (|q| * 100)).toNat)) = true
    by_cases hq : q < 0
    · rw [if_pos hq]
      exact euroShape_cents ['-'] (Or.inr rfl) _
    · rw [if_neg hq]
      exact euroShape_cents [] (Or.inl rfl) _
  · show (⟨eurSwap ((if (0 : ℚ) < 0 then ['-'] else []) ++
        centsChars (roundHalfEven (|(0 : ℚ)| * 100)).toNat)⟩ : String) = "0,00"
    rw [if_neg (lt_irrefl (0 : ℚ)),
      show |(0 : ℚ)| * 100 = ((0 : ℕ) : ℚ) by norm_num,
      roundHalfEven_natCast, Int.toNat_natCast]
    decide
  · show (⟨eurSwap ((if (2469 : ℚ) / 2 < 0 then ['-'] else []) ++
        centsChars (roundHalfEven (|(2469 : ℚ) / 2| * 100)).toNat)⟩ : String) = "1.234,50"
    rw [if_neg (by norm_num : ¬((2469 : ℚ) / 2 < 0)),
      show |(2469 : ℚ) / 2| * 100 = ((123450 : ℕ) : ℚ) by
        rw [abs_of_nonneg (by norm_num : (0 : ℚ) ≤ 2469 / 2)]
        norm_num,
      roundHalfEven_natCast, Int.toNat_natCast]
    decide

/-- C4: eur_fmt is total and recovers from conversion failure locally: on
every input whose float conversion fails it returns the empty string, in
particular on the string abc and on the Python None object. -/
theorem eur_fmt_error_recovery :
    (∀ x : PyVal, pyFloatOf x = none → eur_fmt x = "") ∧
    eur_fmt (PyVal.str "abc") = "" ∧
    eur_fmt PyVal.noneVal = "" := by
  refine ⟨fun x h => ?_, by decide, rfl⟩
  unfold eur_fmt
  rw [h]

/-- C4 witness: a concrete non-numeric string rejected by the float
conversion and mapped to the empty string. -/
theorem eur_fmt_error_recovery_witness :
    pyFloatOf (PyVal.str "12,5") = none ∧ eur_fmt (PyVal.str "12,5") = "" :=
  ⟨by decide, eur_fmt_error_recovery.1 (PyVal.str "12,5") (by decide)⟩

/-- C10: the string nan parses as a float, so eur_fmt returns the string
nan, not the empty string and not a two-decimal localized format; the same
holds for the not-a-number float value; the nan normalization is performed
only by the clean helper, which maps nan to the empty string. -/
theorem eur_fmt_nan_passthrough :
    eur_fmt (PyVal.str "nan") = "nan" ∧
    eur_fmt (PyVal.num PyFloat.nan) = "nan" ∧
    eur_fmt (PyVal.str "nan") ≠ "" ∧
    isEuroFormat (eur_fmt (PyVal.str "nan")) = false ∧
    clean "nan" = "" := by
  refine ⟨by decide, by decide, by decide, by decide, by decide⟩

/-! Claims about the filename sanitizer. -/

theorem collapseWs_sound : ∀ (l : List Char) (prev : Bool),
    (∀ c ∈ l, keptChar c = true) →
    ∀ c ∈ collapseWs prev l, asciiSafe c = true ∧ pyWs c = false := by
  intro l
  induction l with
  | nil =>
    intro prev _ c hc
    simp [collapseWs] at hc
  | cons x t ih =>
    intro prev hk c hc
    have hkt : ∀ y ∈ t, keptChar y = true := fun y hy => hk y (List.mem_cons_of_mem x hy)
    by_cases hw : pyWs x = true
    · have hstep : collapseWs prev (x :: t) =
          if prev = true then collapseWs true t else '_' :: collapseWs true t := by
        rw [collapseWs.eq_2, if_pos hw]
      rw [hstep] at hc
      cases prev with
      | true =>
        rw [if_pos rfl] at hc
        exact ih true hkt c hc
      | false =>
        rw [if_neg (by decide)] at hc
        simp only [List.mem_cons] at hc
        rcases hc with rfl | hc
        · exact ⟨by decide, by decide⟩
        · exact ih true hkt c hc
    · have hw2 : pyWs x = false := by simpa using hw
      have hstep : collapseWs prev (x :: t) = x :: collapseWs false t := by
        rw [collapseWs.eq_2, if_neg hw]
      rw [hstep] at hc
      simp only [List.mem_cons] at hc
      rcases hc with rfl | hc
      · have hkx := hk c (List.mem_cons_self c t)
        simp only [keptChar, Bool.or_eq_true] at hkx
        rcases hkx with h | h
        · exact ⟨h, hw2⟩
        · exact absurd h hw
      · exact ih false hkt c hc

/-- C9 counterexample: an input whose lowercased form already carries the
extension is returned with its uppercase extension unchanged, so the
result does not end with the lowercase string dot pdf. -/
theorem sanitize_filename_upper_pdf :
    sanitize_filename "A.PDF" = "A.PDF" ∧
      ".pdf".data.isSuffixOf (sanitize_filename "A.PDF").data = false := by
  constructor <;> decide

/-- C9 amended: for every input the sanitized filename contains no
whitespace and only ASCII letters, digits, hyphen, underscore and period,
and its lowercased form ends with the dot pdf extension (the extension
keeps the letter case of the input when already present); an empty or
whitespace-only identifier falls back to the default token with the
extension appended. -/
theorem sanitize_filename_spec :
    (∀ s : String,
      (∀ c ∈ (sanitize_filename s).data, pyWs c = false) ∧
      (∀ c ∈ (sanitize_filename s).data, asciiSafe c = true) ∧
      ".pdf".data.isSuffixOf ((sanitize_filename s).data.map Char.toLower) = true) ∧
    (∀ s : String, pyStrip s = "" → sanitize_filename s = "supplier_order.pdf") := by
  constructor
  · intro s
    have hsafe : ∀ c ∈ collapseWs false
        ((if pyStrip s = "" then "supplier_order" else pyStrip s).data.filter
          (fun c => keptChar c)),
        asciiSafe c = true ∧ pyWs c = false := by
      apply collapseWs_sound
      intro c hc
      exact (List.mem_filter.mp hc).2
    by_cases hsuf : ".pdf".data.isSuffixOf
        ((collapseWs false ((if pyStrip s = "" then "supplier_order" else pyStrip s).data.filter
          (fun c => keptChar c))).map Char.toLower) = true
    · have heq : sanitize_filename s = ⟨collapseWs false
          ((if pyStrip s = "" then "supplier_order" else pyStrip s).data.filter
            (fun c => keptChar c))⟩ := by
        unfold sanitize_filename
        rw [if_pos hsuf]
      rw [heq]
      exact ⟨fun c hc => (hsafe c hc).2, fun c hc => (hsafe c hc).1, hsuf⟩
    · have heq : sanitize_filename s = ⟨collapseWs false
          ((if pyStrip s = "" then "supplier_order" else pyStrip s).data.filter
            (fun c => keptChar c)) ++ ".pdf".data⟩ := by
        unfold sanitize_filename
        rw [if_neg hsuf]
      rw [heq]
      refine ⟨fun c hc => ?_, fun c hc => ?_, ?_⟩
      · rcases List.mem_append.mp hc with h | h
        · exact (hsafe c h).2
        · rw [show ".pdf".data = ['.', 'p', 'd', 'f'] from rfl] at h
          simp only [List.mem_cons, List.not_mem_nil, or_false] at h
          rcases h with rfl | rfl | rfl | rfl <;> decide
      · rcases List.mem_append.mp hc with h | h
        · exact (hsafe c h).1
        · rw [show ".pdf".data = ['.', 'p', 'd', 'f'] from rfl] at h
          simp only [List.mem_cons, List.not_mem_nil, or_false] at h
          rcases h with rfl | rfl | rfl | rfl <;> decide
      · show ".pdf".data.isSuffixOf ((collapseWs false
            ((if pyStrip s = "" then "supplier_order" else pyStrip s).data.filter
              (fun c => keptChar c)) ++ ".pdf".data).map Char.toLower) = true
        rw [List.map_append, show ".pdf".data.map Char.toLower = ".pdf".data from by decide,
          List.isSuffixOf_iff_suffix]
        exact List.suffix_append _ _
  · intro s h
    unfold sanitize_filename
    rw [h]
    decide

/-- C9 witness: a concrete input containing a space, and the whitespace
fallback. -/
theorem sanitize_filename_spec_witness :
    pyWs '_' = false ∧ asciiSafe 'm' = true ∧
      sanitize_filename " " = "supplier_order.pdf" :=
  ⟨(sanitize_filename_spec.1 "my report").1 '_' (by decide),
   (sanitize_filename_spec.1 "my report").2.1 'm' (by decide),
   sanitize_filename_spec.2 " " (by decide)⟩

/-! Claims about the document composer. -/

theorem eur_fmt_zero : eur_fmt (PyVal.num (PyFloat.fin 0)) = "0,00" := by
  show (⟨eurSwap ((if (0 : ℚ) < 0 then ['-'] else []) ++
      centsChars (roundHalfEven (|(0 : ℚ)| * 100)).toNat)⟩ : String) = "0,00"
  rw [if_neg (lt_irrefl (0 : ℚ)),
    show |(0 : ℚ)| * 100 = ((0 : ℕ) : ℚ) by norm_num,
    roundHalfEven_natCast, Int.toNat_natCast]
  decide

/-- C8: on an empty line-item list, the document assembly succeeds for
every metadata record, the item table holds only the header row, and the
net, VAT and gross totals all format as the zero amount; blank optional
metadata fields render blank rather than failing. -/
theorem buildPdf_empty_ok :
    (∀ meta : OrderMeta,
      (buildPdf meta []).tableData = [headerCells] ∧
      (buildPdf meta []).netStr = "0,00" ∧
      (buildPdf meta []).vatStr = "0,00" ∧
      (buildPdf meta []).grossStr = "0,00") ∧
    (∀ meta : OrderMeta, meta.ship_to = "" → (buildPdf meta []).shippingHtml = "") ∧
    (∀ meta : OrderMeta, meta.your_order_ref = "" →
      (buildPdf meta []).rightHeader =
        "<b>Order</b><br/>Our Order No.: " ++ meta.order_no ++
          "<br/>VAT ID: " ++ meta.vat_id) := by
  refine ⟨fun meta => ⟨rfl, ?_, ?_, ?_⟩, fun meta h => ?_, fun meta h => ?_⟩
  · exact eur_fmt_zero
  · show eur_fmt (PyVal.num (PyFloat.fin ((0 : ℚ) * meta.vat_rate))) = "0,00"
    rw [zero_mul]
    exact eur_fmt_zero
  · show eur_fmt (PyVal.num (PyFloat.fin ((0 : ℚ) + (0 : ℚ) * meta.vat_rate))) = "0,00"
    rw [zero_mul, add_zero]
    exact eur_fmt_zero
  · show (if meta.ship_to ≠ "" then replaceNl (clean meta.ship_to) else "") = ""
    rw [h]
    simp
  · show ("<b>Order</b><br/>Our Order No.: " ++ meta.order_no ++
        (if meta.your_order_ref ≠ "" then "<br/>Your order ref.: " ++ meta.your_order_ref
         else "") ++
        "<br/>VAT ID: " ++ meta.vat_id) =
      "<b>Order</b><br/>Our Order No.: " ++ meta.order_no ++ "<br/>VAT ID: " ++ meta.vat_id
    rw [h]
    simp

/-- C8 witness: the empty order rendered with the all-blank metadata
record. -/
theorem buildPdf_empty_ok_witness :
    (buildPdf sampleMeta []).tableData = [headerCells] ∧
    (buildPdf sampleMeta []).netStr = "0,00" ∧
    (buildPdf sampleMeta []).grossStr = "0,00" ∧
    sampleMeta.ship_to = "" ∧ (buildPdf sampleMeta []).shippingHtml = "" ∧
    sampleMeta.your_order_ref = "" ∧
    (buildPdf sampleMeta []).rightHeader =
      "<b>Order</b><br/>Our Order No.: " ++ sampleMeta.order_no ++
        "<br/>VAT ID: " ++ sampleMeta.vat_id :=
  ⟨(buildPdf_empty_ok.1 sampleMeta).1, (buildPdf_empty_ok.1 sampleMeta).2.1,
   (buildPdf_empty_ok.1 sampleMeta).2.2.2, rfl,
   buildPdf_empty_ok.2.1 sampleMeta rfl, rfl,
   buildPdf_empty_ok.2.2 sampleMeta rfl⟩
